import Mathlib

/-!
Verification development for the hitome system monitor (Rust).

Each stat block of the monitor keeps a keyed map of entities with
`(previous, current)` counter samples and a staleness flag, refreshed by an
`update()` method and rendered by a `Display::fmt` implementation.  The
definitions below are shallow embeddings of those methods, translated from
`src/common.rs`, `src/network.rs`, `src/blockdev.rs`, `src/cpu.rs`,
`src/hwmon.rs`, `src/tasks.rs`, `src/fs.rs` and `src/main.rs`:

* Rust maps become association lists: `HashMap`/`FnvHashMap` (iteration order
  unspecified in Rust) are modelled as insertion-ordered lists, `BTreeMap` as
  key-sorted lists maintained by an ordered insert.
* File reads become `Option` inputs (`none` = the `Err` branch of the read).
* u64 arithmetic is ℕ with explicit `% 2 ^ 64` where the source relies on
  wrapping; operations that panic in Rust (division by zero, checked
  underflow) are modelled with `Option` results where a claim depends on them.
* `f32` values that the claims touch are modelled as exact rationals (ℚ); the
  inputs used in concrete theorems are dyadic values on which `f32`
  arithmetic is exact.
-/

namespace Hitome

/-- Association-list view of a Rust map: key/value pairs in iteration order. -/
abbrev AList (K V : Type) := List (K × V)

/-- Rust `map.get_mut(k)` followed by mutating the value in place: the entry
keeps its position, all other entries are untouched. -/
def mapAdjust {K V : Type} [BEq K] (k : K) (f : V → V) : AList K V → AList K V
  | [] => []
  | (k₁, v) :: t => if k == k₁ then (k₁, f v) :: t else (k₁, v) :: mapAdjust k f t

/-- `BTreeMap::insert` on the key-sorted association-list model: the new pair
is placed before the first key strictly larger under the order `lt`; an
equal key has its value replaced in place. -/
def btreeInsert {K V : Type} [DecidableEq K] (lt : K → K → Bool) (k : K) (v : V) :
    AList K V → AList K V
  | [] => [(k, v)]
  | (k₁, v₁) :: t =>
    if lt k k₁ then (k, v) :: (k₁, v₁) :: t
    else if k = k₁ then (k₁, v) :: t
    else (k₁, v₁) :: btreeInsert lt k v t

/-- Code-point lexicographic order on char lists, kept structural so proofs
can evaluate it.  On the ASCII keys appearing here it coincides with the
byte-lexicographic `Ord` Rust's `BTreeMap<String, _>` sorts by. -/
def charsLt : List Char → List Char → Bool
  | [], [] => false
  | [], _ :: _ => true
  | _ :: _, [] => false
  | a :: as, b :: bs =>
    decide (a.toNat < b.toNat) || (decide (a.toNat = b.toNat) && charsLt as bs)

/-- The string order used by the `BTreeMap<String, _>` maps. -/
def strLt (a b : String) : Bool := charsLt a.data b.data

/-- Mark-phase of the mark-sweep staleness tracker: set every entry's stale
flag (the `for v in map.values_mut() { v.stale = Stale(true) }` loops). -/
def markAll {K V : Type} (f : V → V) (m : AList K V) : AList K V :=
  m.map fun kv => (kv.1, f kv.2)

/-- Character-list core of `str::starts_with`. -/
def charsStartWith : List Char → List Char → Bool
  | _, [] => true
  | [], _ :: _ => false
  | c :: cs, p :: ps => p == c && charsStartWith cs ps

/-- `str::starts_with(pat)` (structural implementation on the char lists, so
that proofs can evaluate it). -/
def strStartsWith (s pat : String) : Bool :=
  charsStartWith s.data pat.data

/-- 2^64, the wrap modulus of Rust u64 counters. -/
def U64 : Nat := 2 ^ 64

/-- u64 `wrapping_sub` for operands already reduced below `2 ^ 64`. -/
def wsub64 (a b : Nat) : Nat := (a % U64 + U64 - b % U64) % U64

/-! ## Network block (`src/network.rs`) -/

/-- `IfaceStats`: one sample of an interface's counters.  `t` is the
`Instant` the sample was taken (milliseconds of a monotone clock), `rx`/`tx`
the u64 byte counters. -/
structure IfaceStats where
  t : Nat
  rx : Nat
  tx : Nat
deriving DecidableEq, Repr

/-- One map entry `(IfaceStats, IfaceStats, Stale)`: previous sample, current
sample, stale flag. -/
structure NetEnt where
  prev : IfaceStats
  cur : IfaceStats
  stale : Bool
deriving DecidableEq, Repr

/-- The `ifaces` map.  The source uses `HashMap<String, _>`, whose iteration
order is unspecified; we model it as an insertion-ordered association list
(one admissible iteration order). -/
abbrev NetMap := AList String NetEnt

/-- One parsed data line of `/proc/net/dev` (after the two skipped header
lines): the kernel name (field 0, trailing `:` stripped), `rx_bytes`
(field 1) and `tx_bytes` (field 9 after the name). -/
structure NetRecord where
  kname : String
  rx : Nat
  tx : Nat
deriving DecidableEq, Repr

/-- `NetworkStats::update`.  `input` is the read of `/proc/net/dev`
(`none` = I/O error, in which case the method returns at once leaving the map
untouched); `t` is `Instant::now()`.  Interfaces whose name starts with
`"br"` are skipped; a missing key is inserted as a zeroed pair `(z, z)` with
both timestamps `t`; then `prev := cur`, `cur := fresh sample`, stale
cleared; finally still-stale entries are swept. -/
def updateNet (input : Option (List NetRecord)) (t : Nat) (m : NetMap) : NetMap :=
  match input with
  | none => m
  | some recs =>
    let m := markAll (fun e => { e with stale := true }) m
    let m := recs.foldl (fun m r =>
      if strStartsWith r.kname "br" then m
      else
        let m :=
          match m.lookup r.kname with
          | some _ => m
          | none =>
            let z : IfaceStats := { t := t, rx := 0, tx := 0 }
            m ++ [(r.kname, { prev := z, cur := z, stale := false })]
        mapAdjust r.kname (fun e =>
          { prev := e.cur
            cur := { t := t, rx := r.rx, tx := r.tx }
            stale := false }) m) m
    m.filter fun kv => kv.2.stale == false

/-- One data row of `NetworkStats::fmt`: the interface name and its RX/s and
TX/s byte rates. -/
structure NetRow where
  kname : String
  rx : Nat
  tx : Nat
deriving DecidableEq, Repr

/-- The per-entry rate computation of `NetworkStats::fmt` (lines 111-118):
`t = Δms` between the two samples, rates `1000 * wrapping_sub / t`.  The
source divides with **no** guard on `t = 0`; u64 division by zero panics in
Rust (debug and release), modelled by `none`.  The `1000 * _` product is u64
multiplication, reduced `% 2 ^ 64`. -/
def renderNet (m : NetMap) : Option (List NetRow) :=
  m.mapM fun kv =>
    let e := kv.2
    let t := e.cur.t - e.prev.t
    if t = 0 then none
    else
      some { kname := kv.1
             rx := 1000 * wsub64 e.cur.rx e.prev.rx % U64 / t
             tx := 1000 * wsub64 e.cur.tx e.prev.tx % U64 / t }

/-! ## Block-device block (`src/blockdev.rs`) -/

/-- `DevStats`: one sample of a block device.  `read`/`written` are bytes
(512 × sector counters), `wrt` the weighed-request-time counter (ms). -/
structure DevStats where
  t : Nat
  read : Nat
  written : Nat
  wrt : Nat
deriving DecidableEq, Repr

/-- One entry of the `devices` map: `(DevStats, DevStats, Stale)`. -/
structure DevEnt where
  prev : DevStats
  cur : DevStats
  stale : Bool
deriving DecidableEq, Repr

/-- The `devices` map: a `BTreeMap<String, _>`, kept key-sorted so traversal
is in name order. -/
abbrev BdevMap := AList String DevEnt

/-- One line of `/proc/diskstats` as consumed by `BlockDeviceStats::update`:
the device name (field 2) and the counters picked out afterwards by `nth`:
sectors read (field 5), sectors written (field 9), weighed request time in ms
(field 13). -/
structure DevRecord where
  kname : String
  sectorsRead : Nat
  sectorsWritten : Nat
  wrtMs : Nat
deriving DecidableEq, Repr

/-- The partition filter of `BlockDeviceStats::update` (lines 75-79): skip a
record iff the last character of its name is in the **exclusive** Rust range
`'0'..'9'` and the map (at this point of the scan, stale entries included)
already contains the name minus its trailing character.  The source unwraps
the name's last character; `/proc/diskstats` names are never empty. -/
def isPartFiltered (kname : String) (m : BdevMap) : Bool :=
  match kname.data.getLast? with
  | some c => decide ('0' ≤ c ∧ c < '9') && (m.lookup (String.mk kname.data.dropLast)).isSome
  | none => false

/-- `BlockDeviceStats::update`.  `none` input = I/O error: return at once,
state untouched.  Names starting with `dm-` or `loop` are skipped, then the
partition filter applies; a missing key is inserted as a zeroed pair (both
timestamps `t`); then `prev := cur`, `cur := fresh sample` (bytes =
512 × sectors), stale cleared; still-stale entries are swept at the end. -/
def updateBdev (input : Option (List DevRecord)) (t : Nat) (m : BdevMap) : BdevMap :=
  match input with
  | none => m
  | some recs =>
    let m := markAll (fun e => { e with stale := true }) m
    let m := recs.foldl (fun m r =>
      if strStartsWith r.kname "dm-" || strStartsWith r.kname "loop" then m
      else if isPartFiltered r.kname m then m
      else
        let m :=
          match m.lookup r.kname with
          | some _ => m
          | none =>
            let z : DevStats := { t := t, read := 0, written := 0, wrt := 0 }
            btreeInsert strLt r.kname { prev := z, cur := z, stale := false } m
        mapAdjust r.kname (fun e =>
          { prev := e.cur
            cur := { t := t, read := 512 * r.sectorsRead,
                     written := 512 * r.sectorsWritten, wrt := r.wrtMs }
            stale := false }) m) m
    m.filter fun kv => kv.2.stale == false

/-- One data row of `BlockDeviceStats::fmt`: name, READ/s, WRITE/s and the
pressure percentage `100 * Δwrt / Δms` (an `f32` value, exact here). -/
structure DevRow where
  kname : String
  rd : Nat
  wt : Nat
  pressure : ℚ
deriving DecidableEq, Repr

/-- The row loop of `BlockDeviceStats::fmt` (lines 144-167): entries in map
order; an entry whose sample-time delta is zero (`/* Device was just added
*/`) is skipped with `continue`; the rest render
`1000 * (cur - prev) / t` rates (u64 subtraction of the monotone byte
counters) and the pressure percentage. -/
def renderBdev (m : BdevMap) : List DevRow :=
  (m.filter fun kv => kv.2.cur.t - kv.2.prev.t ≠ 0).map fun kv =>
    let e := kv.2
    let t := e.cur.t - e.prev.t
    { kname := kv.1
      rd := 1000 * (e.cur.read - e.prev.read) / t
      wt := 1000 * (e.cur.written - e.prev.written) / t
      pressure := 100 * ((e.cur.wrt - e.prev.wrt : Nat) : ℚ) / (t : ℚ) }

/-! ## CPU block (`src/cpu.rs`) -/

/-- `CpuTicks`: the per-core counters of a `/proc/stat` `cpuN` line; `total`
is the sum of the first five fields. -/
structure CpuTicks where
  user : Nat
  nice : Nat
  system : Nat
  iowait : Nat
  idle : Nat
  total : Nat
deriving DecidableEq, Repr

/-- One entry of the `state` map: `(CpuTicks, CpuTicks, Stale)`. -/
structure CpuEnt where
  prev : CpuTicks
  cur : CpuTicks
  stale : Bool
deriving DecidableEq, Repr

/-- The `state` map: `BTreeMap<usize, _>`, key-sorted by CPU id. -/
abbrev CpuMap := AList Nat CpuEnt

/-- One `cpuN` line of `/proc/stat`: the id parsed from the label and the
first five counter fields (user, nice, system, idle, iowait). -/
structure CpuRecord where
  cpuid : Nat
  user : Nat
  nice : Nat
  system : Nat
  idle : Nat
  iowait : Nat
deriving DecidableEq, Repr

/-- `CpuStats::update` (lines 67-128).  On read failure the source does
**not** leave the state untouched: it executes `self.state.clear()` and
returns, emptying the whole map.  On success: mark stale, upsert each core
(`prev := cur`, `cur` rebuilt with `total` = sum of the five fields, stale
cleared), then sweep still-stale entries. -/
def updateCpu (input : Option (List CpuRecord)) (m : CpuMap) : CpuMap :=
  match input with
  | none => []
  | some recs =>
    let m := markAll (fun e => { e with stale := true }) m
    let m := recs.foldl (fun m r =>
      let m :=
        match m.lookup r.cpuid with
        | some _ => m
        | none =>
          let z : CpuTicks :=
            { user := 0, nice := 0, system := 0, iowait := 0, idle := 0, total := 0 }
          btreeInsert (fun a b : Nat => decide (a < b)) r.cpuid { prev := z, cur := z, stale := false } m
      mapAdjust r.cpuid (fun e =>
        { prev := e.cur
          cur := { user := r.user, nice := r.nice, system := r.system,
                   iowait := r.iowait, idle := r.idle,
                   total := r.user + r.nice + r.system + r.idle + r.iowait }
          stale := false }) m) m
    m.filter fun kv => kv.2.stale == false

/-! ## Hwmon block (`src/hwmon.rs`) -/

/-- `KeyKind`: sysfs hwmon chips vs NVML devices. -/
inductive HKey
  | hw (n : Nat)
  | nv (n : Nat)
deriving DecidableEq, Repr

/-- The derived Rust `Ord` of `KeyKind`: variant order first
(`Hwmon < Nvml`), then the payload. -/
def HKey.ltB : HKey → HKey → Bool
  | .hw a, .hw b => a < b
  | .hw _, .nv _ => true
  | .nv _, .hw _ => false
  | .nv a, .nv b => a < b

/-- `DataKind`: one sensor reading.  Temperatures are
`Celsius(input / 1000.0)` (exact rational here); percentages likewise;
bytes/watts carry an optional total. -/
inductive DataKind
  | temperature (c : ℚ)
  | percentage (p : ℚ)
  | bytesData (used : Nat) (total : Option Nat)
  | wattsData (used : Nat) (total : Option Nat)
  | nothing
deriving DecidableEq, Repr

/-- The nested per-chip readings map `BTreeMap<String, (DataKind, Stale)>`. -/
abbrev ReadMap := AList String (DataKind × Bool)

/-- One entry of the top-level `state` map:
`(String, BTreeMap<String, (DataKind, Stale)>, Stale)` — chip name, readings,
stale flag. -/
structure ChipEnt where
  name : String
  readings : ReadMap
  stale : Bool
deriving DecidableEq, Repr

/-- The top-level map `BTreeMap<KeyKind, _>`, key-sorted. -/
abbrev HwmonMap := AList HKey ChipEnt

/-- What `update` finds under one `/sys/class/hwmon/hwmonX` directory: the
index `X`, the contents of `name` (trailing newline stripped), the
`tempY_input` milli-°C values for `Y = 1..` up to the first missing file
(each with its optional `tempY_label`), and — read only when the chip is
named `"amdgpu"` — the optional `power1_average`/`power1_cap` pair (µW) and
`device/mem_info_vram_used`/`mem_info_vram_total` pair (bytes). -/
structure ChipInput where
  idx : Nat
  name : String
  temps : List (ℚ × Option String)
  power : Option (Nat × Nat)
  vram : Option (Nat × Nat)
deriving Repr

/-- One NVML device's per-tick readings: GPU temperature, memory used/total
and gpu/mem utilisation percentages, each `none` when the call failed. -/
structure NvmlDev where
  temp : Option ℚ
  mem : Option (Nat × Nat)
  util : Option (Nat × Nat)
deriving Repr

/-- Upsert one reading label: insert `(Nothing, Stale(false))` when the label
is absent, then overwrite with the fresh value and clear its stale flag. -/
def readUpsert (label : String) (dk : DataKind) (rm : ReadMap) : ReadMap :=
  let rm := match rm.lookup label with
    | some _ => rm
    | none => btreeInsert strLt label (DataKind.nothing, false) rm
  mapAdjust label (fun _ => (dk, false)) rm

/-- The per-chip body of `HwmonStats::update` (lines 77-218): upsert the
top-level entry and clear its stale flag, mark every nested reading stale,
store the chip name, walk `tempY_input` (a missing label yields the
synthetic `TempY`), read the amdgpu power/VRAM pairs when applicable, and
finally sweep the nested map — but only under the source's condition
`ent.1.len() != y`, where `y` is one past the last temperature index read. -/
def chipStep (st : HwmonMap) (chip : ChipInput) : HwmonMap :=
  let k := HKey.hw chip.idx
  let st := match st.lookup k with
    | some _ => st
    | none => btreeInsert HKey.ltB k { name := "", readings := [], stale := false } st
  let st := mapAdjust k (fun e =>
    { name := chip.name
      readings := markAll (fun r => (r.1, true)) e.readings
      stale := false }) st
  let st := mapAdjust k (fun e =>
    { e with readings :=
        ((List.enumFrom 1 chip.temps).foldl (fun rm tv =>
          let label := (tv.2.2).getD ("Temp" ++ toString tv.1)
          readUpsert label (DataKind.temperature (tv.2.1 / 1000)) rm) e.readings) }) st
  let st :=
    if chip.name = "amdgpu" then
      let st := match chip.power with
        | some pw =>
          mapAdjust k (fun e =>
            { e with readings :=
                (readUpsert "pwr"
                  (DataKind.wattsData (pw.1 / 1000000) (some (pw.2 / 1000000)))
                  e.readings) }) st
        | none => st
      match chip.vram with
      | some vr =>
        mapAdjust k (fun e =>
          { e with readings :=
              readUpsert "vram" (DataKind.bytesData vr.1 (some vr.2)) e.readings }) st
      | none => st
    else st
  let y := chip.temps.length + 1
  mapAdjust k (fun e =>
    if e.readings.length ≠ y then
      { e with readings := e.readings.filter fun r => r.2.2 == false }
    else e) st

/-- The per-device body of the NVML walk (lines 221-272): upsert the entry
(seeding `Tgpu`/`Vram`/`Load` on creation — in a `BTreeMap` they sit in the
order Load, Tgpu, Vram), clear its top-level stale flag (nested flags are
not touched here), and overwrite the three readings. -/
def nvmlStep (st : HwmonMap) (i : Nat) (dev : NvmlDev) : HwmonMap :=
  let k := HKey.nv i
  let st := match st.lookup k with
    | some _ => st
    | none =>
      btreeInsert HKey.ltB k
        { name := "nvidia" ++ toString i
          readings := [("Load", (DataKind.nothing, false)),
                       ("Tgpu", (DataKind.nothing, false)),
                       ("Vram", (DataKind.nothing, false))]
          stale := false } st
  let st := mapAdjust k (fun e => { e with stale := false }) st
  let tgpu := match dev.temp with
    | some t => DataKind.temperature t
    | none => DataKind.nothing
  let vram := match dev.mem with
    | some m => DataKind.percentage (100 * (m.1 : ℚ) / (m.2 : ℚ))
    | none => DataKind.nothing
  let load := match dev.util with
    | some u => DataKind.percentage ((max u.1 u.2 : Nat) : ℚ)
    | none => DataKind.nothing
  mapAdjust k (fun e =>
    { e with readings :=
        (mapAdjust "Load" (fun r => (load, r.2))
          (mapAdjust "Vram" (fun r => (vram, r.2))
            (mapAdjust "Tgpu" (fun r => (tgpu, r.2)) e.readings))) }) st

/-- `HwmonStats::update`: mark every top-level entry stale, walk the sysfs
monitors (`none` = `read_dir` failed, nothing walked), walk the NVML devices
when the library initialised, then sweep still-stale top-level entries. -/
def updateHwmon (sysfs : Option (List ChipInput)) (nvml : Option (List NvmlDev))
    (st : HwmonMap) : HwmonMap :=
  let st := markAll (fun e => { e with stale := true }) st
  let st := match sysfs with
    | some chips => chips.foldl chipStep st
    | none => st
  let st := match nvml with
    | some devs => (List.enum devs).foldl (fun st (dv : Nat × NvmlDev) => nvmlStep st dv.1 dv.2) st
    | none => st
  st.filter fun kv => kv.2.stale == false

/-! ## Task block (`src/tasks.rs`) -/

/-- `TaskState` as parsed from the stat file's state letter. -/
inductive TaskState
  | sleeping
  | running
  | uninterruptible
  | zombie
  | traced
  | idleTask
  | unknown
deriving DecidableEq, Repr

/-- `Jiffies(used, uptime)`: jiffies consumed by the task and the sampled
system uptime (in jiffies) paired with it.  For a freshly-seen task the
`uptime` slot of the previous sample is seeded with the task's `starttime`. -/
structure Jiffies where
  used : Nat
  uptime : Nat
deriving DecidableEq, Repr

/-- One `TaskEntry` (the cached fd is not modelled — it does not influence
the parsed values once the read succeeds). -/
structure TaskEnt where
  prevJ : Jiffies
  curJ : Jiffies
  state : TaskState
  stale : Bool
deriving DecidableEq, Repr

/-- The fields extracted from one successful read of
`/proc/<tid>/task/<tid>/stat`: the state letter, `utime + stime`, and
`starttime`. -/
structure StatRead where
  state : TaskState
  usedJiffies : Nat
  starttime : Nat
deriving DecidableEq, Repr

/-- The `tasks` map (`FnvHashMap<Pid, TaskEntry>`), modelled insertion-
ordered; iteration order never matters to the claims below. -/
abbrev TaskMap := AList Nat TaskEnt

/-- The per-task closure body of `TaskStats::update` (lines 377-458), for a
task whose stat file was read successfully.  A missing key is inserted
zero-initialised with `stale = Stale(false)`; because only a
freshly-inserted entry still has `stale == Stale(false)` at this point (all
surviving entries were marked stale at the start of the tick), the
`starttime` seed into `cur.uptime` happens exactly on insertion.  Then the
pair is rotated and the current sample stored.  `uptime` is the per-tick
uptime sample (the source adds the milliseconds elapsed since the sample,
which only increases it within a tick). -/
def taskStep (uptime : Nat) (m : TaskMap) (tid : Nat) (sr : StatRead) : TaskMap :=
  let m := match m.lookup tid with
    | some _ => m
    | none =>
      m ++ [(tid, { prevJ := ⟨0, 0⟩, curJ := ⟨0, 0⟩,
                    state := TaskState.sleeping, stale := false })]
  mapAdjust tid (fun e =>
    let e := if e.stale == false then { e with curJ := { e.curJ with uptime := sr.starttime } }
             else e
    { prevJ := e.curJ
      curJ := { used := sr.usedJiffies, uptime := uptime }
      state := sr.state
      stale := false }) m

/-- `TaskStats::update` up to and including the sweep (lines 357-459): mark
every entry stale, fold the observed `(tid, stat)` pairs, sweep still-stale
entries. -/
def taskUpdate (uptime : Nat) (obs : List (Nat × StatRead)) (m : TaskMap) : TaskMap :=
  let m := markAll (fun e => { e with stale := true }) m
  let m := obs.foldl (fun m o => taskStep uptime m o.1 o.2) m
  m.filter fun kv => kv.2.stale == false

/-- The heap-push filter of `TaskStats::update` (line 464): an entry is
excluded from the top-K heap iff `prev.uptime ≥ cur.uptime`. -/
def taskExcluded (e : TaskEnt) : Bool :=
  decide (e.curJ.uptime ≤ e.prevJ.uptime)

/-- The CPU share pushed for a non-excluded entry (lines 470-473):
`(100 * (cur.used - prev.used) / (cur.uptime - prev.uptime)) as u8`.  The
u64 subtraction and multiplication wrap in release builds (debug builds
panic on underflow); the `as u8` cast truncates to the low byte. -/
def taskCpuPct (e : TaskEnt) : Nat :=
  100 * wsub64 e.curJ.used e.prevJ.used % U64 / (e.curJ.uptime - e.prevJ.uptime) % 256

/-! ## Formatting primitives (`src/common.rs`) -/

/-- Rust `{:>w$}`: right-align `s` in a field of `w` characters, padding with
spaces on the left; a longer string is never truncated. -/
def padRightAlign (w : Nat) (s : String) : String :=
  if s.length < w then String.mk (List.replicate (w - s.length) ' ') ++ s else s

/-- Round the nonnegative fraction `num / den` to the nearest integer, ties
to even — the rounding Rust `f32` formatting applies at the requested
precision.  (`den ≠ 0` at every use.) -/
def roundHalfEvenND (num den : Nat) : Nat :=
  let fl := num / den
  let rem2 := 2 * (num % den)
  if rem2 < den then fl
  else if den < rem2 then fl + 1
  else if fl % 2 = 0 then fl else fl + 1

/-- Left-pad a digit string with `'0'` to `p` characters (the fixed fractional
part of `{:.p$}`). -/
def padZeros (p : Nat) (s : String) : String :=
  if s.length < p then String.mk (List.replicate (p - s.length) '0') ++ s else s

/-- Rust `{:.p$}` of a nonnegative value given as the exact fraction
`num / den`: `p` fractional digits (none when `p = 0`), value rounded
half-to-even at the last digit. -/
def fmtFixed (num den p : Nat) : String :=
  let scaled := roundHalfEvenND (num * 10 ^ p) den
  let ip := scaled / 10 ^ p
  let fp := scaled % 10 ^ p
  if p = 0 then toString ip
  else toString ip ++ "." ++ padZeros p (toString fp)

/-- `Bytes::fmt` (common.rs lines 90-124).  `width`/`prec` are the
formatter's width and precision (the callers' defaults are 8 and 2).
`w := width - 1` and, for `prec > 0`, `w - p - 1` are usize subtractions that
panic on underflow (modelled by `none`; unreachable when
`width ≥ prec + 4`).  The unit threshold is `10000` when at least four digit
positions remain before the decimal point, else `1000`; the smallest unit of
K/M/G/T whose mantissa reaches the threshold is chosen, zero renders as a
right-aligned `"."` over the full field.  The `self.0 as f32 / 1024^k`
mantissa is carried as the exact fraction `n / 1024^k`. -/
def bytesFmt (n width prec : Nat) : Option String :=
  if width = 0 then none else
  let w := width - 1
  let p := prec
  let thr? : Option Nat :=
    if p = 0 then some (if 4 ≤ w then 10000 else 1000)
    else if p + 1 ≤ w then some (if 4 ≤ w - p - 1 then 10000 else 1000)
    else none
  match thr? with
  | none => none
  | some threshold =>
    if threshold * 1024 * 1024 * 1024 ≤ n then
      some (padRightAlign w (fmtFixed n (1024 * 1024 * 1024 * 1024) p) ++ "T")
    else if threshold * 1024 * 1024 ≤ n then
      some (padRightAlign w (fmtFixed n (1024 * 1024 * 1024) p) ++ "G")
    else if threshold * 1024 ≤ n then
      some (padRightAlign w (fmtFixed n (1024 * 1024) p) ++ "M")
    else if 0 < n then
      some (padRightAlign w (fmtFixed n 1024 p) ++ "K")
    else
      some (padRightAlign (w + 1) ".")

/-- `Threshold<T>` (common.rs): a value with its three ordered cutoffs. -/
structure Threshold (α : Type) where
  val : α
  med : α
  high : α
  crit : α

/-- The style picked by `MaybeSmart<Threshold<T>>::fmt`: plain text or one of
the bold ANSI colours. -/
inductive ThresholdStyle
  | plain
  | yellowBold
  | redBold
  | magentaBold
deriving DecidableEq, Repr

/-- The escape sequence each style opens with: bold yellow `ESC[1;93m`, bold
red `ESC[1;91m`, bold magenta `ESC[1;95m`. -/
def ThresholdStyle.escape : ThresholdStyle → String
  | .plain => ""
  | .yellowBold => "\x1B[1;93m"
  | .redBold => "\x1B[1;91m"
  | .magentaBold => "\x1B[1;95m"

/-- The colour selection of `MaybeSmart<Threshold<T>>::fmt` (common.rs lines
188-215).  `pcmp` is `T`'s `PartialOrd::partial_cmp`.  With `smart` off the
value renders plain; otherwise the three comparisons against `med`, `high`
and `crit` are tried in turn, each taken only when `partial_cmp` returns
`Some(Less)`, and the final `else` renders in bold magenta. -/
def thresholdStyle {α : Type} (pcmp : α → α → Option Ordering) (t : Threshold α)
    (smart : Bool) : ThresholdStyle :=
  if !smart then .plain
  else if pcmp t.val t.med = some .lt then .plain
  else if pcmp t.val t.high = some .lt then .yellowBold
  else if pcmp t.val t.crit = some .lt then .redBold
  else .magentaBold

/-- `f32` as ordered by `PartialOrd`: `none` models NaN, `some q` a numeric
value (the values reaching the claims are exactly representable). -/
abbrev F32 := Option ℚ

/-- `partial_cmp` on `F32`: NaN is incomparable with everything; numeric
values compare totally. -/
def f32Pcmp : F32 → F32 → Option Ordering
  | some a, some b => some (compare a b)
  | _, _ => none

/-- The USED% value of `FilesystemStats::fmt` (fs.rs lines 151-161):
`100.0 * ((size - avail) as f32) / (size as f32)`.  The u64 subtraction
assumes `avail ≤ size` (statvfs guarantees it); when the filesystem reports
`size = 0` the division is `0.0 / 0.0 = NaN`, modelled as `none`. -/
def fsUsedPct (size avail : Nat) : F32 :=
  if size = 0 then none
  else some (100 * ((size - avail : Nat) : ℚ) / (size : ℚ))

/-! ## UTF-8 sanitiser (`src/common.rs` `read_to_string`, lines 233-329) -/

/-- The replacement byte `b'?'`. -/
def QB : Nat := 63

/-- The in-place byte-mangling loop of `read_to_string`, as a function on the
byte list (bytes are ℕ < 256).  Each step consumes the leader byte and, via
`check_byte`, up to three continuation bytes: a consumed byte > `0xBF` is
itself overwritten with `'?'` before the sequence is rejected; a rejected or
truncated sequence has its already-consumed bytes overwritten with `'?'`;
3-byte sequences whose codepoint's high byte lies in `0xD8..0xE0`
(surrogates) and 4-byte sequences whose high bits are ≥ `0x11` (codepoints
≥ U+110000) are fully overwritten.  The buffer length never changes. -/
def sanitize : List Nat → List Nat
  | [] => []
  | cp :: rest =>
    if cp ≤ 0x7F then cp :: sanitize rest
    else if 0xF8 ≤ cp then QB :: sanitize rest
    else
      match rest with
      | [] => QB :: sanitize []
      | a :: rest₁ =>
        if 0xBF < a then QB :: QB :: sanitize rest₁
        else if cp < 0xE0 then cp :: a :: sanitize rest₁
        else
          match rest₁ with
          | [] => QB :: QB :: sanitize []
          | b :: rest₂ =>
            if 0xBF < b then QB :: QB :: QB :: sanitize rest₂
            else if cp < 0xF0 then
              let firstByte := (cp &&& 0x0F) <<< 4 ||| (a &&& 0x3C) >>> 2
              if 0xD8 ≤ firstByte ∧ firstByte < 0xE0 then
                QB :: QB :: QB :: sanitize rest₂
              else cp :: a :: b :: sanitize rest₂
            else
              match rest₂ with
              | [] => QB :: QB :: QB :: sanitize []
              | c :: rest₃ =>
                if 0xBF < c then QB :: QB :: QB :: QB :: sanitize rest₃
                else
                  let firstByte := (cp &&& 0x07) <<< 2 ||| (a &&& 0x30) >>> 4
                  if 0x11 ≤ firstByte then QB :: QB :: QB :: QB :: sanitize rest₃
                  else cp :: a :: b :: c :: sanitize rest₃

/-- Standard UTF-8 validity of a byte sequence (RFC 3629, the byte-range
table also enforced by Rust's `str::from_utf8`): rejects overlong forms,
surrogates and codepoints above U+10FFFF. -/
def utf8Valid : List Nat → Bool
  | [] => true
  | b0 :: rest =>
    if b0 ≤ 0x7F then utf8Valid rest
    else if 0xC2 ≤ b0 ∧ b0 ≤ 0xDF then
      match rest with
      | b1 :: rest₁ => decide (0x80 ≤ b1 ∧ b1 ≤ 0xBF) && utf8Valid rest₁
      | [] => false
    else if 0xE0 ≤ b0 ∧ b0 ≤ 0xEF then
      match rest with
      | b1 :: b2 :: rest₂ =>
        let lo1 := if b0 = 0xE0 then 0xA0 else 0x80
        let hi1 := if b0 = 0xED then 0x9F else 0xBF
        decide (lo1 ≤ b1 ∧ b1 ≤ hi1) && decide (0x80 ≤ b2 ∧ b2 ≤ 0xBF) && utf8Valid rest₂
      | _ => false
    else if 0xF0 ≤ b0 ∧ b0 ≤ 0xF4 then
      match rest with
      | b1 :: b2 :: b3 :: rest₃ =>
        let lo1 := if b0 = 0xF0 then 0x90 else 0x80
        let hi1 := if b0 = 0xF4 then 0x8F else 0xBF
        decide (lo1 ≤ b1 ∧ b1 ≤ hi1) && decide (0x80 ≤ b2 ∧ b2 ≤ 0xBF) &&
          decide (0x80 ≤ b3 ∧ b3 ≤ 0xBF) && utf8Valid rest₃
      | _ => false
    else false

/-! ## Tick driver sleep (`src/main.rs` lines 529-533) -/

/-- The sleep length computed at the end of every tick:
`settings.refresh - t.elapsed().as_millis() as u64`.  This is plain u64
subtraction — it panics on underflow in debug builds and wraps to a huge
value in release builds; both are modelled by `none` when
`elapsed > refresh`. -/
def tickSleepMs (refresh elapsed : Nat) : Option Nat :=
  if elapsed ≤ refresh then some (refresh - elapsed) else none

/-! ## Concrete scenario states used by the theorems below -/

/-- Two network ticks: `eth0` present on both, `eth1` first observed on the
second tick (so its previous sample equals its current sample and its
sample-time delta is zero at render time). -/
def netStWithFresh : NetMap :=
  updateNet (some [⟨"eth0", 1100, 1200⟩, ⟨"eth1", 5, 5⟩]) 1000
    (updateNet (some [⟨"eth0", 100, 200⟩]) 0 [])

/-- Two block-device ticks: `sda` present on both, `sdb` first observed on
the second tick. -/
def bdevStWithFresh : BdevMap :=
  updateBdev (some [⟨"sda", 200, 200, 20⟩, ⟨"sdb", 1, 1, 1⟩]) 1000
    (updateBdev (some [⟨"sda", 100, 100, 10⟩]) 0 [])

/-- A non-empty CPU map (one core with distinct previous/current samples). -/
def cpuStNonempty : CpuMap :=
  [(0, { prev := ⟨1, 1, 1, 1, 1, 5⟩, cur := ⟨2, 2, 2, 2, 2, 10⟩, stale := false })]

/-- Hwmon tick 1: chip `hwmon0` (named `chipA`) exposes two labelled
temperatures `T1` and `T2`. -/
def hwmonStT1 : HwmonMap :=
  updateHwmon (some [⟨0, "chipA", [(30000, some "T1"), (40000, some "T2")], none, none⟩])
    none []

/-- Hwmon tick 2: the same chip now exposes only `T1` — the reading count
(2, the fresh `T1` plus the stale `T2`) equals the final temperature index
`y = 2`, so the source's conditional nested sweep is skipped. -/
def hwmonStT2 : HwmonMap :=
  updateHwmon (some [⟨0, "chipA", [(31000, some "T1")], none, none⟩]) none hwmonStT1

/-- One diskstats tick containing `sda` and `sda9`. -/
def bdevStSda9 : BdevMap :=
  updateBdev (some [⟨"sda", 1, 1, 1⟩, ⟨"sda9", 1, 1, 1⟩]) 0 []

/-- Diskstats tick 1 of the S3 scenario: `sda` and `sda1`. -/
def bdevStS3a : BdevMap :=
  updateBdev (some [⟨"sda", 1, 1, 1⟩, ⟨"sda1", 1, 1, 1⟩]) 0 []

/-- S3 tick 2: `sda` gone, `sda1` still present. -/
def bdevStS3b : BdevMap :=
  updateBdev (some [⟨"sda1", 2, 2, 2⟩]) 1000 bdevStS3a

/-- S3 tick 3: `sda1` present again. -/
def bdevStS3c : BdevMap :=
  updateBdev (some [⟨"sda1", 3, 3, 3⟩]) 2000 bdevStS3b

/-- Task tick 1: tid 42 first observed (starttime 100, 50 used jiffies,
uptime sample 1000). -/
def taskSt1 : TaskMap :=
  taskUpdate 1000 [(42, ⟨TaskState.running, 50, 100⟩)] []

/-- The stat fields of the *different* process that reuses tid 42 on tick 2:
a different starttime (1500) and its own jiffies count. -/
def reusedStat : StatRead := ⟨TaskState.running, 3, 1500⟩

/-- Task tick 2: tid 42 has been reused by `reusedStat`'s process. -/
def taskSt2 : TaskMap := taskUpdate 2000 [(42, reusedStat)] taskSt1

/-- The tick-1 map as it stands when tick 2's walk reaches tid 42: every
entry has just been marked stale. -/
def taskSt1Marked : TaskMap :=
  markAll (fun e => { e with stale := true }) taskSt1

/-- The entry the walk writes for the reused tid on tick 2. -/
def reusedEnt : TaskEnt :=
  { prevJ := ⟨50, 1000⟩, curJ := ⟨3, 2000⟩, state := TaskState.running, stale := false }

/-- Two network ticks over interfaces fed in the order `eth1`, `eth0`: in
the insertion-order model of the `HashMap` both survive in that order. -/
def netStUnsorted : NetMap :=
  updateNet (some [⟨"eth1", 10, 20⟩, ⟨"eth0", 30, 40⟩]) 1000
    (updateNet (some [⟨"eth1", 0, 0⟩, ⟨"eth0", 0, 0⟩]) 0 [])

/-- Key-sortedness of an association-list map: the key sequence is strictly
increasing in the `BTreeMap` string order. -/
def KeysSorted {α : Type} (m : AList String α) : Prop :=
  List.Pairwise (fun a b => strLt a b = true) (m.map Prod.fst)

/-- The `Threshold` built by `FilesystemStats::fmt` for a filesystem whose
reported size is zero: the USED% value is NaN, the cutoffs are the source's
80 / 90 / 95. -/
def fsNaNThreshold : Threshold F32 :=
  { val := fsUsedPct 0 0, med := some 80, high := some 90, crit := some 95 }

/-! ## Helper lemmas -/

/-- Looking up the adjusted key returns the adjusted value. -/
theorem lookup_mapAdjust {V : Type} (k : Nat) (f : V → V) (m : AList Nat V) :
    (mapAdjust k f m).lookup k = (m.lookup k).map f := by
  induction m with
  | nil => rfl
  | cons kv t ih =>
    obtain ⟨k₁, v⟩ := kv
    by_cases h : k = k₁
    · simp [mapAdjust, List.lookup, h]
    · simp [mapAdjust, List.lookup, h, beq_false_of_ne h, ih]

/-- Characters with equal code points are equal. -/
theorem charEqOfToNatEq {a b : Char} (h : a.toNat = b.toNat) : a = b :=
  Char.eq_of_val_eq (UInt32.ext h)

/-- `charsLt` is transitive. -/
theorem charsLt_trans : ∀ (a b c : List Char),
    charsLt a b = true → charsLt b c = true → charsLt a c = true := by
  intro a
  induction a with
  | nil =>
    intro b c hab hbc
    cases b with
    | nil => simp [charsLt] at hab
    | cons y ys =>
      cases c with
      | nil => simp [charsLt] at hbc
      | cons z zs => simp [charsLt]
  | cons x xs ih =>
    intro b c hab hbc
    cases b with
    | nil => simp [charsLt] at hab
    | cons y ys =>
      cases c with
      | nil => simp [charsLt] at hbc
      | cons z zs =>
        simp only [charsLt, Bool.or_eq_true, Bool.and_eq_true, decide_eq_true_eq] at hab hbc ⊢
        rcases hab with h1 | ⟨h1, h1t⟩ <;> rcases hbc with h2 | ⟨h2, h2t⟩
        · exact Or.inl (by omega)
        · exact Or.inl (by omega)
        · exact Or.inl (by omega)
        · exact Or.inr ⟨by omega, ih ys zs h1t h2t⟩

/-- `charsLt` totally orders distinct lists. -/
theorem charsLt_total : ∀ (a b : List Char),
    charsLt a b = true ∨ a = b ∨ charsLt b a = true := by
  intro a
  induction a with
  | nil =>
    intro b
    cases b with
    | nil => exact Or.inr (Or.inl rfl)
    | cons y ys => exact Or.inl rfl
  | cons x xs ih =>
    intro b
    cases b with
    | nil => exact Or.inr (Or.inr rfl)
    | cons y ys =>
      rcases Nat.lt_trichotomy x.toNat y.toNat with h | h | h
      · refine Or.inl ?_
        simp only [charsLt, Bool.or_eq_true, Bool.and_eq_true, decide_eq_true_eq]
        exact Or.inl h
      · rcases ih ys with h1 | h1 | h1
        · refine Or.inl ?_
          simp only [charsLt, Bool.or_eq_true, Bool.and_eq_true, decide_eq_true_eq]
          exact Or.inr ⟨h, h1⟩
        · exact Or.inr (Or.inl (by rw [charEqOfToNatEq h, h1]))
        · refine Or.inr (Or.inr ?_)
          simp only [charsLt, Bool.or_eq_true, Bool.and_eq_true, decide_eq_true_eq]
          exact Or.inr ⟨h.symm, h1⟩
      · refine Or.inr (Or.inr ?_)
        simp only [charsLt, Bool.or_eq_true, Bool.and_eq_true, decide_eq_true_eq]
        exact Or.inl h

/-- `strLt` is transitive. -/
theorem strLt_trans {a b c : String} (hab : strLt a b = true) (hbc : strLt b c = true) :
    strLt a c = true :=
  charsLt_trans a.data b.data c.data hab hbc

/-- `strLt` totally orders distinct strings. -/
theorem strLt_total (a b : String) : strLt a b = true ∨ a = b ∨ strLt b a = true := by
  rcases charsLt_total a.data b.data with h | h | h
  · exact Or.inl h
  · refine Or.inr (Or.inl ?_)
    cases a
    cases b
    exact congrArg String.mk h
  · exact Or.inr (Or.inr h)

/-- `mapAdjust` never changes the key sequence. -/
theorem keys_mapAdjust {K V : Type} [BEq K] (k : K) (f : V → V) (m : AList K V) :
    (mapAdjust k f m).map Prod.fst = m.map Prod.fst := by
  induction m with
  | nil => rfl
  | cons kv t ih =>
    obtain ⟨k₁, v⟩ := kv
    cases h : k == k₁ <;> simp [mapAdjust, h, ih]

/-- `markAll` never changes the key sequence. -/
theorem keys_markAll {K V : Type} (f : V → V) (m : AList K V) :
    (markAll f m).map Prod.fst = m.map Prod.fst := by
  simp only [markAll, List.map_map]
  rfl

/-- Every key of `btreeInsert lt k v m` is `k` or a key of `m`. -/
theorem mem_keys_btreeInsert {V : Type} (k : String) (v : V) (m : AList String V)
    (y : String) (hy : y ∈ (btreeInsert strLt k v m).map Prod.fst) :
    y = k ∨ y ∈ m.map Prod.fst := by
  induction m with
  | nil => simpa [btreeInsert] using hy
  | cons kv t ih =>
    obtain ⟨k₁, v₁⟩ := kv
    cases h1 : strLt k k₁ with
    | true =>
      simp only [btreeInsert, h1, if_true, List.map_cons, List.mem_cons] at hy
      rcases hy with rfl | rfl | hy
      · exact Or.inl rfl
      · exact Or.inr (by simp)
      · exact Or.inr (by simp [hy])
    | false =>
      by_cases h2 : k = k₁
      · simp only [btreeInsert, h1, Bool.false_eq_true, if_false] at hy
        rw [if_pos h2] at hy
        simp only [List.map_cons, List.mem_cons] at hy
        rcases hy with rfl | hy
        · exact Or.inr (by simp)
        · exact Or.inr (by simp [hy])
      · simp only [btreeInsert, h1, Bool.false_eq_true, if_false] at hy
        rw [if_neg h2] at hy
        simp only [List.map_cons, List.mem_cons] at hy
        rcases hy with rfl | hy
        · exact Or.inr (by simp)
        · rcases ih hy with rfl | hy'
          · exact Or.inl rfl
          · exact Or.inr (by simp [hy'])

/-- `btreeInsert` keeps the key sequence strictly sorted. -/
theorem keysSorted_btreeInsert {V : Type} (k : String) (v : V) (m : AList String V) :
    KeysSorted m → KeysSorted (btreeInsert strLt k v m) := by
  unfold KeysSorted
  induction m with
  | nil =>
    intro _
    simp [btreeInsert]
  | cons kv t ih =>
    intro hm
    obtain ⟨k₁, v₁⟩ := kv
    simp only [List.map_cons, List.pairwise_cons] at hm
    obtain ⟨h₁, h₂⟩ := hm
    cases hlt : strLt k k₁ with
    | true =>
      simp only [btreeInsert, hlt, if_true, List.map_cons, List.pairwise_cons, List.mem_cons]
      refine ⟨?_, h₁, h₂⟩
      rintro y (rfl | hy)
      · exact hlt
      · exact strLt_trans hlt (h₁ y hy)
    | false =>
      by_cases heq : k = k₁
      · simp only [btreeInsert, hlt, Bool.false_eq_true, if_false]
        rw [if_pos heq]
        simp only [List.map_cons, List.pairwise_cons]
        exact ⟨h₁, h₂⟩
      · have hk₁k : strLt k₁ k = true := by
          rcases strLt_total k k₁ with h | h | h
          · rw [h] at hlt
            cases hlt
          · exact absurd h heq
          · exact h
        simp only [btreeInsert, hlt, Bool.false_eq_true, if_false]
        rw [if_neg heq]
        simp only [List.map_cons, List.pairwise_cons]
        refine ⟨?_, ih h₂⟩
        intro y hy
        rcases mem_keys_btreeInsert k v t y hy with rfl | hy'
        · exact hk₁k
        · exact h₁ y hy'

/-- Sweeping (filtering) a sorted map keeps it sorted. -/
theorem keysSorted_filter {V : Type} (p : String × V → Bool) (m : AList String V)
    (hm : KeysSorted m) : KeysSorted (m.filter p) := by
  unfold KeysSorted at *
  exact List.Pairwise.sublist ((List.filter_sublist m).map Prod.fst) hm

/-- A fold whose steps keep the keys sorted keeps the keys sorted. -/
theorem keysSorted_foldl {β V : Type} (f : AList String V → β → AList String V)
    (hf : ∀ mm b, KeysSorted mm → KeysSorted (f mm b)) :
    ∀ (l : List β) (mm : AList String V), KeysSorted mm → KeysSorted (List.foldl f mm l) := by
  intro l
  induction l with
  | nil => exact fun mm hmm => hmm
  | cons b bs ih => exact fun mm hmm => ih _ (hf mm b hmm)

/-- `BlockDeviceStats::update` keeps the device keys strictly sorted. -/
theorem keysSorted_updateBdev (input : Option (List DevRecord)) (t : Nat) (m : BdevMap)
    (hm : KeysSorted m) : KeysSorted (updateBdev input t m) := by
  cases input with
  | none => exact hm
  | some recs =>
    unfold updateBdev
    apply keysSorted_filter
    apply keysSorted_foldl _ ?_ recs
    · unfold KeysSorted
      rw [keys_markAll]
      exact hm
    · intro mm r hmm
      dsimp only
      split
      · exact hmm
      · split
        · exact hmm
        · have hinner : KeysSorted (match mm.lookup r.kname with
              | some _ => mm
              | none =>
                btreeInsert strLt r.kname
                  { prev := { t := t, read := 0, written := 0, wrt := 0 },
                    cur := { t := t, read := 0, written := 0, wrt := 0 },
                    stale := false } mm) := by
            cases h : mm.lookup r.kname with
            | some _ => exact hmm
            | none => exact keysSorted_btreeInsert _ _ _ hmm
          unfold KeysSorted at hinner ⊢
          rw [keys_mapAdjust]
          exact hinner

/-- The rendered block-device rows carry exactly the keys of the entries that
survive the `Δt = 0` skip, in map order. -/
theorem renderBdev_keys (m : BdevMap) :
    (renderBdev m).map DevRow.kname =
      (m.filter fun kv => kv.2.cur.t - kv.2.prev.t ≠ 0).map Prod.fst := by
  unfold renderBdev
  rw [List.map_map]
  rfl

/-- The right-align padding yields exactly `max w s.length` characters. -/
theorem length_padRightAlign (w : Nat) (s : String) :
    (padRightAlign w s).length = max w s.length := by
  unfold padRightAlign
  split
  · next h =>
    rw [String.length_append]
    have hrep : (String.mk (List.replicate (w - s.length) ' ')).length = w - s.length := by
      show (List.replicate (w - s.length) ' ').length = w - s.length
      exact List.length_replicate _ _
    omega
  · next h =>
    omega

/-! ## Claim theorems -/

/-- Claim C1 (code divergence): blockdev's `fmt` does skip an entry whose
sample-time delta is zero, but network's `fmt` has no such guard: a freshly
inserted interface (previous sample = current sample) makes the rate
division `1000 * Δ / 0` divide by zero, which panics.  At a state where
`eth1` was first observed on the current tick, the network render is the
division-by-zero panic (`none`) while the block-device render (same shape of
state, fresh `sdb`) skips the fresh entry and renders `sda` alone. -/
theorem network_fmt_divides_by_zero_on_fresh_iface :
    renderNet netStWithFresh = none ∧
      (renderBdev bdevStWithFresh).map DevRow.kname = ["sda"] := by
  constructor
  · rfl
  · rfl

/-- Claim C2 (code divergence): the sanitiser leaves the overlong two-byte
sequence `0xC0 0x80` untouched (its bytes pass the naive leader/continuation
checks), and that byte sequence is not valid UTF-8 — `str::from_utf8`
rejects overlong forms.  The byte length is preserved, as always. -/
theorem sanitize_output_can_be_invalid_utf8 :
    sanitize [0xC0, 0x80] = [0xC0, 0x80] ∧ utf8Valid [0xC0, 0x80] = false := by
  constructor
  · rfl
  · rfl

/-- Claim C3 counterexample: on a read failure (`none` input) the CPU block
does not leave its previous state untouched — it clears the whole map. -/
theorem cpu_update_clears_state_on_read_failure :
    updateCpu none cpuStNonempty = [] ∧ updateCpu none cpuStNonempty ≠ cpuStNonempty := by
  constructor
  · rfl
  · intro h
    simp [updateCpu, cpuStNonempty] at h

/-- Claim C3 amended: on a read failure the network and block-device blocks
return silently with their maps completely unchanged, while the CPU block
empties its map. -/
theorem read_failure_state_effects (t : Nat) (nm : NetMap) (bm : BdevMap) (cm : CpuMap) :
    updateNet none t nm = nm ∧ updateBdev none t bm = bm ∧ updateCpu none cm = [] :=
  ⟨rfl, rfl, rfl⟩

/-- Claim C4 (code divergence): after the second hwmon tick — the chip's
labelled temperatures shrank from `{T1, T2}` to `{T1}`, so the nested map
holds 2 readings and the final temperature index `y` is 2, making the
source's conditional sweep `if ent.1.len() != y` skip — the nested reading
`T2` still has its stale flag set when `update()` returns. -/
theorem hwmon_inner_sweep_leaves_stale_entry :
    ((hwmonStT2.lookup (HKey.hw 0)).bind (fun e => e.readings.lookup "T2")).map Prod.snd =
      some true := by
  rfl

/-- Claim C5 counterexample: `sda9` ends in the digit `9` and the map
already contains `sda`, yet it is *not* skipped — the source tests the last
character against the exclusive range `'0'..'9'`, which excludes `'9'`. -/
theorem partition_filter_misses_trailing_nine :
    bdevStSda9.map Prod.fst = ["sda", "sda9"] := by
  rfl

/-- Claim C5 amended: a record is skipped exactly when its name's last
character is in `'0'..'8'` and the map — stale entries from the previous
tick included — contains the name minus that character.  Consequently `sda`
with `sda1` yields `sda` alone; on the first tick after `sda` disappears
`sda1` is still skipped (the stale `sda` is present at filter time), and
`sda1` appears alone only from the second such tick. -/
theorem partition_filter_exclusive_range_behaviour :
    (∀ m : BdevMap, isPartFiltered "sda9" m = false) ∧
      (∀ m : BdevMap, isPartFiltered "sda1" m = (m.lookup "sda").isSome) ∧
      bdevStS3a.map Prod.fst = ["sda"] ∧
      bdevStS3b.map Prod.fst = [] ∧
      bdevStS3c.map Prod.fst = ["sda1"] := by
  refine ⟨fun m => ?_, fun m => ?_, rfl, rfl, rfl⟩
  · have h : isPartFiltered "sda9" m = (false && (m.lookup "sda").isSome) := rfl
    rw [h]
    exact Bool.false_and _
  · have h : isPartFiltered "sda1" m = (true && (m.lookup "sda").isSome) := rfl
    rw [h]
    exact Bool.true_and _

/-- Claim C6 counterexample: when tid 42, seen on the previous tick, is
reused by a different process (starttime 1500 ≠ 100), the second observation
rotates the existing entry in place: `prev.uptime` is the previous tick's
uptime sample (1000), `cur.uptime` the current one (2000), so
`prev.uptime > cur.uptime` is false and the heap-push filter does *not*
exclude the task on the reuse tick. -/
theorem tid_reuse_not_skipped_on_reuse_tick :
    taskSt2.lookup 42 = some reusedEnt ∧
      reusedEnt.prevJ.uptime = 1000 ∧ reusedEnt.curJ.uptime = 2000 ∧
      taskExcluded reusedEnt = false := by
  exact ⟨rfl, rfl, rfl, rfl⟩

/-- Claim C6 amended: an entry that already existed when the walk reaches its
tid (hence was marked stale at the start of the tick) is rotated in place;
when the tick's uptime sample is ahead of the entry's last one — always true
for an entry from the previous tick, tid reuse or not — the rotated entry has
`prev.uptime < cur.uptime`, so the heap-push filter does not exclude it. -/
theorem existing_entry_not_excluded_when_uptime_advances
    (m : TaskMap) (tid : Nat) (e : TaskEnt) (sr : StatRead) (uptime : Nat)
    (hl : m.lookup tid = some e) (hs : e.stale = true) (hu : e.curJ.uptime < uptime) :
    (taskStep uptime m tid sr).lookup tid =
      some { prevJ := e.curJ, curJ := ⟨sr.usedJiffies, uptime⟩,
             state := sr.state, stale := false } ∧
      taskExcluded { prevJ := e.curJ, curJ := ⟨sr.usedJiffies, uptime⟩,
                     state := sr.state, stale := false } = false := by
  constructor
  · unfold taskStep
    rw [hl]
    simp only [lookup_mapAdjust, hl]
    simp [hs]
  · simp only [taskExcluded, decide_eq_false_iff_not]
    omega

/-- Witness for `existing_entry_not_excluded_when_uptime_advances`: the
concrete tid-reuse scenario — tick 2's walk hits the marked tick-1 entry for
tid 42 with the reused process's stat fields and uptime 2000. -/
theorem existing_entry_not_excluded_witness :
    (taskStep 2000 taskSt1Marked 42 reusedStat).lookup 42 = some reusedEnt ∧
      taskExcluded reusedEnt = false :=
  existing_entry_not_excluded_when_uptime_advances taskSt1Marked 42
    { prevJ := ⟨0, 100⟩, curJ := ⟨50, 1000⟩, state := TaskState.running, stale := true }
    reusedStat 2000 rfl rfl (by decide)

/-- Claim C7 counterexample: with `/proc/net/dev` listing `eth1` before
`eth0`, the insertion-order model of the `HashMap` renders the rows in the
order `eth1`, `eth0` — not key-sorted (Rust's `HashMap` iteration order is
unspecified, so no sorted-order guarantee exists under any admissible
model). -/
theorem network_render_order_not_sorted :
    (renderNet netStUnsorted).map (List.map NetRow.kname) = some ["eth1", "eth0"] ∧
      ¬ List.Pairwise (fun a b => strLt a b = true) ["eth1", "eth0"] := by
  refine ⟨rfl, fun hp => ?_⟩
  rw [List.pairwise_cons] at hp
  exact absurd (hp.1 "eth0" (by simp)) (by decide)

/-- Claim C7 amended: the block-device block's `BTreeMap` map stays strictly
key-sorted across `update()`, and its render (which skips `Δt = 0` entries
in place) emits rows in strictly increasing key order — deterministic and
stable across ticks for a fixed key set. -/
theorem bdev_update_and_render_sorted (input : Option (List DevRecord)) (t : Nat)
    (m : BdevMap) (hm : KeysSorted m) :
    KeysSorted (updateBdev input t m) ∧
      List.Pairwise (fun a b => strLt a b = true)
        ((renderBdev (updateBdev input t m)).map DevRow.kname) := by
  have h1 := keysSorted_updateBdev input t m hm
  refine ⟨h1, ?_⟩
  rw [renderBdev_keys]
  exact keysSorted_filter _ _ h1

/-- Witness for `bdev_update_and_render_sorted`: one update of the empty map
with the records `sdb`, `sda` (fed unsorted). -/
theorem bdev_update_and_render_sorted_witness :
    KeysSorted (updateBdev (some [⟨"sdb", 4, 4, 4⟩, ⟨"sda", 1, 1, 1⟩]) 0 []) ∧
      List.Pairwise (fun a b => strLt a b = true)
        ((renderBdev (updateBdev (some [⟨"sdb", 4, 4, 4⟩, ⟨"sda", 1, 1, 1⟩]) 0 [])).map
          DevRow.kname) :=
  bdev_update_and_render_sorted (some [⟨"sdb", 4, 4, 4⟩, ⟨"sda", 1, 1, 1⟩]) 0 []
    List.Pairwise.nil

/-- Claim C8 counterexample: at `n = 2^63`, `width = 4`, `precision = 0` the
formatter (threshold 1000, T branch, mantissa `2^63 / 2^40 = 8388608`)
produces `"8388608T"`, 8 characters — not `width = 4`.  At this dyadic input
the `f32` computation is exact. -/
theorem bytesFmt_width_exceeded_for_huge_count :
    bytesFmt (2 ^ 63) 4 0 = some "8388608T" ∧ ("8388608T").length ≠ 4 := by
  exact ⟨rfl, by decide⟩

/-- Claim C8 amended: whenever `width ≥ precision + 4` the formatter
succeeds (no usize underflow) and its output is at least `width` characters
— the mantissa is right-aligned into `width - 1` characters and the one-
character unit appended, the zero case fills the whole field — but nothing
bounds it above by `width` when the mantissa is long. -/
theorem bytesFmt_length_at_least_width (n width prec : Nat) (h : prec + 4 ≤ width) :
    ∃ s, bytesFmt n width prec = some s ∧ width ≤ s.length := by
  have hw : ¬ width = 0 := by omega
  unfold bytesFmt
  rw [if_neg hw]
  dsimp only
  obtain ⟨thr, hthr⟩ : ∃ thr,
      (if prec = 0 then some (if 4 ≤ width - 1 then 10000 else 1000)
       else if prec + 1 ≤ width - 1 then some (if 4 ≤ width - 1 - prec - 1 then 10000 else 1000)
       else none) = some thr := by
    by_cases hp : prec = 0
    · exact ⟨_, by rw [if_pos hp]⟩
    · have hle : prec + 1 ≤ width - 1 := by omega
      exact ⟨_, by rw [if_neg hp, if_pos hle]⟩
  rw [hthr]
  dsimp only
  split_ifs with h1 h2 h3 h4
  · refine ⟨_, rfl, ?_⟩
    rw [String.length_append, length_padRightAlign]
    have := Nat.le_max_left (width - 1) (fmtFixed n (1024 * 1024 * 1024 * 1024) prec).length
    have hT : ("T" : String).length = 1 := rfl
    omega
  · refine ⟨_, rfl, ?_⟩
    rw [String.length_append, length_padRightAlign]
    have := Nat.le_max_left (width - 1) (fmtFixed n (1024 * 1024 * 1024) prec).length
    have hG : ("G" : String).length = 1 := rfl
    omega
  · refine ⟨_, rfl, ?_⟩
    rw [String.length_append, length_padRightAlign]
    have := Nat.le_max_left (width - 1) (fmtFixed n (1024 * 1024) prec).length
    have hM : ("M" : String).length = 1 := rfl
    omega
  · refine ⟨_, rfl, ?_⟩
    rw [String.length_append, length_padRightAlign]
    have := Nat.le_max_left (width - 1) (fmtFixed n 1024 prec).length
    have hK : ("K" : String).length = 1 := rfl
    omega
  · refine ⟨_, rfl, ?_⟩
    rw [length_padRightAlign]
    have := Nat.le_max_left (width - 1 + 1) ("." : String).length
    omega

/-- Witness for `bytesFmt_length_at_least_width`: 5000 bytes at the callers'
default `(width, precision) = (8, 2)`. -/
theorem bytesFmt_length_at_least_width_witness :
    ∃ s, bytesFmt 5000 8 2 = some s ∧ 8 ≤ s.length :=
  bytesFmt_length_at_least_width 5000 8 2 (by decide)

/-- Claim C10: when `partial_cmp` of the value against all three cutoffs
returns `None` (an incomparable value, e.g. NaN), the smart threshold
renderer falls through the three `Some(Less)` tests and lands in the final
`else`, the bold-magenta (critical) style `ESC[1;95m`. -/
theorem incomparable_threshold_renders_critical {α : Type}
    (pcmp : α → α → Option Ordering) (t : Threshold α)
    (h1 : pcmp t.val t.med = none) (h2 : pcmp t.val t.high = none)
    (h3 : pcmp t.val t.crit = none) :
    thresholdStyle pcmp t true = ThresholdStyle.magentaBold ∧
      ThresholdStyle.magentaBold.escape = "\x1B[1;95m" := by
  refine ⟨?_, rfl⟩
  simp [thresholdStyle, h1, h2, h3]

/-- Witness for `incomparable_threshold_renders_critical`: the threshold the
filesystem block builds for a mount whose reported size is 0 — its USED%
value is `0.0 / 0.0 = NaN`, incomparable with the 80/90/95 cutoffs. -/
theorem incomparable_threshold_renders_critical_witness :
    thresholdStyle f32Pcmp fsNaNThreshold true = ThresholdStyle.magentaBold ∧
      ThresholdStyle.magentaBold.escape = "\x1B[1;95m" :=
  incomparable_threshold_renders_critical f32Pcmp fsNaNThreshold rfl rfl rfl

/-- Claim C9 (code divergence): the tick driver computes the sleep length
with plain u64 subtraction `refresh - elapsed`; when a tick's elapsed time
(3000 ms) exceeds the refresh interval (2000 ms) the subtraction underflows
(panic in debug, wrap in release) instead of saturating to the zero the
claim describes. -/
theorem tick_sleep_underflows_when_elapsed_exceeds_refresh :
    tickSleepMs 2000 3000 = none ∧ tickSleepMs 2000 3000 ≠ some 0 := by
  exact ⟨rfl, by simp [tickSleepMs]⟩

end Hitome
